import Mathlib

/-!
Verification of the IQR outlier-detection cell of
`src/ai/notebooks/explore_data.ipynb` (Section 9), the only computed logic
in the repository.  The cell is

    numerical_cols = df.select_dtypes(include=['int64', 'float64']).columns
    ...
    for col in numerical_cols:
        Q1 = df[col].quantile(0.25)
        Q3 = df[col].quantile(0.75)
        IQR = Q3 - Q1
        lower_bound = Q1 - 1.5 * IQR
        upper_bound = Q3 + 1.5 * IQR
        outliers = df[(df[col] < lower_bound) | (df[col] > upper_bound)][col]
        print(...)

The embedding models a pandas DataFrame as an ordered list of named,
typed columns.  Numeric cells are `Option ℚ` (ideal rational arithmetic in
place of float64; `none` models NaN/missing).  External pandas semantics
used by the cell and embedded here from pandas' documented behaviour:
`Series.quantile` drops NaN and linearly interpolates between order
statistics, returning NaN on an empty series; arithmetic propagates NaN;
comparisons with NaN are False, so a boolean-mask row selection never
selects a NaN row.
-/

namespace Rexoul

/-- A cell of an `int64`/`float64` pandas column; `none` models NaN. -/
abbrev NumCell := Option ℚ

/-- A pandas column: numeric dtype (`int64`/`float64`) or object dtype. -/
inductive Column where
  | num (vals : List NumCell)
  | obj (vals : List String)
deriving Repr, DecidableEq

/-- A DataFrame: ordered named columns, rows aligned positionally. -/
abbrev Table := List (String × Column)

/-- Column lookup `df[c]` (first match, as a pandas column index). -/
def getCol (t : Table) (c : String) : Option Column :=
  (t.find? (fun p => p.1 == c)).map (·.2)

/-- The source's `df.select_dtypes(include=['int64','float64']).columns`
(notebook Section 5): names of the numeric columns, in table order. -/
def numerical_cols (t : Table) : List String :=
  (t.filter (fun p => match p.2 with | .num _ => true | .obj _ => false)).map (·.1)

/-- Ascending sort of the non-missing values, the order statistics
underlying `Series.quantile`. -/
def sortVals (xs : List ℚ) : List ℚ :=
  List.insertionSort (· ≤ ·) xs

/-- Linear interpolation between order statistics at fractional rank `h`:
`s[⌊h⌋] + (h − ⌊h⌋)·(s[⌊h⌋+1] − s[⌊h⌋])`, the upper index clamped to the
last position (numpy's default `linear` interpolation, defined for
`0 ≤ h ≤ s.length − 1`). -/
def interp (s : List ℚ) (h : ℚ) : ℚ :=
  s.getD ⌊h⌋.toNat 0 +
    (h - (⌊h⌋.toNat : ℚ)) *
      (s.getD (min (⌊h⌋.toNat + 1) (s.length - 1)) 0 - s.getD ⌊h⌋.toNat 0)

/-- Pandas `Series.quantile(q)` on the non-missing values `xs`: NaN (`none`) on an
empty series, else linear interpolation at rank `(n−1)·q` over the sorted
values.  Pandas' default `interpolation='linear'`, NaN dropped by the
caller via `filterMap id`. -/
def quantile? (xs : List ℚ) (q : ℚ) : Option ℚ :=
  if xs = [] then none
  else some (interp (sortVals xs) (((xs.length : ℚ) - 1) * q))

/-- NaN-propagating subtraction on float-like values. -/
def osub : Option ℚ → Option ℚ → Option ℚ
  | some a, some b => some (a - b)
  | _, _ => none

/-- NaN-propagating addition on float-like values. -/
def oadd : Option ℚ → Option ℚ → Option ℚ
  | some a, some b => some (a + b)
  | _, _ => none

/-- NaN-propagating scalar multiplication (`1.5 * IQR`). -/
def oscale (c : ℚ) : Option ℚ → Option ℚ
  | some a => some (c * a)
  | none => none

/-- Float comparison `a < b` as pandas evaluates it in a boolean mask:
any comparison involving NaN is `false`. -/
def oltB : Option ℚ → Option ℚ → Bool
  | some a, some b => decide (a < b)
  | _, _ => false

/-- The source's `Q1 = df[col].quantile(0.25)`, over the column's non-missing values. -/
def Q1 (vs : List NumCell) : Option ℚ :=
  quantile? (vs.filterMap id) (1/4)

/-- The source's `Q3 = df[col].quantile(0.75)`, over the column's non-missing values. -/
def Q3 (vs : List NumCell) : Option ℚ :=
  quantile? (vs.filterMap id) (3/4)

/-- The source's `IQR = Q3 - Q1`. -/
def IQR (vs : List NumCell) : Option ℚ :=
  osub (Q3 vs) (Q1 vs)

/-- The source's `lower_bound = Q1 - 1.5 * IQR`. -/
def lower_bound (vs : List NumCell) : Option ℚ :=
  osub (Q1 vs) (oscale (3/2) (IQR vs))

/-- The source's `upper_bound = Q3 + 1.5 * IQR`. -/
def upper_bound (vs : List NumCell) : Option ℚ :=
  oadd (Q3 vs) (oscale (3/2) (IQR vs))

/-- The boolean mask `(df[col] < lower_bound) | (df[col] > upper_bound)`
evaluated at one cell. -/
def outlierPred (vs : List NumCell) (v : NumCell) : Bool :=
  oltB v (lower_bound vs) || oltB (upper_bound vs) v

/-- The selection `df[mask][col]`: the rows the mask selects, as (original position,
cell value) pairs in original row order. -/
def outlierRows (vs : List NumCell) : List (ℕ × NumCell) :=
  vs.enum.filter (fun p => outlierPred vs p.2)

/-- The observable output of one loop iteration: `len(outliers)` and the
selected sub-series with its original index. -/
structure ScanResult where
  count : ℕ
  rows : List (ℕ × NumCell)
deriving Repr, DecidableEq

/-- Errors the loop body can raise: pandas `KeyError` on a missing column
and `TypeError` from `quantile` on an object-dtype column, both surfaced
to the caller as the spec's InvalidColumn. -/
inductive ScanError where
  | invalidColumn
deriving Repr, DecidableEq

/-- The loop body applied to one numeric column's values. -/
def scanCol (vs : List NumCell) : ScanResult :=
  ⟨(outlierRows vs).length, outlierRows vs⟩

/-- The contract `scan(table, column)`: the Section 9 loop body as a function of the
table and a column name.  A missing column (`df[col]` raises `KeyError`)
or an object-dtype column (`Series.quantile` raises `TypeError`) fails;
a numeric column yields the count and the selected rows. -/
def scan (t : Table) (c : String) : Except ScanError ScanResult :=
  match getCol t c with
  | none => .error .invalidColumn
  | some (.obj _) => .error .invalidColumn
  | some (.num vs) => .ok (scanCol vs)

/-- Spec-side predicate (from the spec's words, for comparison with the
code's mask): a row is an outlier iff its column value is strictly less
than the lower bound or strictly greater than the upper bound; a missing
value is never an outlier. -/
def strictlyOutside (lb ub : ℚ) : NumCell → Bool
  | some x => decide (x < lb ∨ ub < x)
  | none => false

/-- One printed line of the Section 9 cell. -/
inductive OutputLine where
  | header (col : String)
  | numOutliers (n : ℕ)
  | headPreview (rows : List (ℕ × NumCell))
deriving Repr, DecidableEq

/-- The notebook state the Section 9 cell touches: the DataFrame `df` and
the cell's own (notebook-global) variables, plus the printed output. -/
structure CellState where
  df : Table
  q1v : Option ℚ
  q3v : Option ℚ
  iqrv : Option ℚ
  lowerv : Option ℚ
  upperv : Option ℚ
  outliersv : List (ℕ × NumCell)
  output : List OutputLine
deriving Repr, DecidableEq

/-- The values of column `c`; the Section 9 loop applies this only to
columns of `numerical_cols`, which are always numeric. -/
def colVals (t : Table) (c : String) : List NumCell :=
  match getCol t c with
  | some (.num vs) => vs
  | _ => []

/-- One iteration of the Section 9 loop: recompute `Q1`, `Q3`, `IQR`, the
two bounds and `outliers` from `df[col]`, and print the count (plus
`outliers.head()`, its first 5 rows, when there are any).  `df` itself is
only read. -/
def loopBody (s : CellState) (col : String) : CellState :=
  let vs := colVals s.df col
  let res := scanCol vs
  { df := s.df
    q1v := Q1 vs
    q3v := Q3 vs
    iqrv := IQR vs
    lowerv := lower_bound vs
    upperv := upper_bound vs
    outliersv := res.rows
    output := s.output ++ [OutputLine.header col, OutputLine.numOutliers res.count] ++
      (if res.count > 0 then [OutputLine.headPreview (res.rows.take 5)] else []) }

/-- The whole Section 9 IQR cell: the loop over `numerical_cols`. -/
def outlierCell (s : CellState) : CellState :=
  (numerical_cols s.df).foldl loopBody s

/-! ### Properties of the order statistics -/

lemma sortVals_sorted (xs : List ℚ) : List.Sorted (· ≤ ·) (sortVals xs) :=
  List.sorted_insertionSort _ xs

lemma sortVals_perm (xs : List ℚ) : (sortVals xs).Perm xs :=
  List.perm_insertionSort _ xs

lemma sortVals_length (xs : List ℚ) : (sortVals xs).length = xs.length :=
  (sortVals_perm xs).length_eq

lemma sortVals_ne_nil {xs : List ℚ} (hx : xs ≠ []) : sortVals xs ≠ [] := by
  intro h
  exact hx (List.length_eq_zero.mp (by rw [← sortVals_length xs, h, List.length_nil]))

lemma mem_sortVals {xs : List ℚ} {x : ℚ} (h : x ∈ sortVals xs) : x ∈ xs :=
  (sortVals_perm xs).mem_iff.mp h

/-- Positional monotonicity of a sorted list of rationals. -/
lemma sorted_getD_mono {s : List ℚ} (hs : List.Sorted (· ≤ ·) s) {k l : ℕ}
    (hkl : k ≤ l) (hl : l < s.length) : s.getD k 0 ≤ s.getD l 0 := by
  have hk : k < s.length := lt_of_le_of_lt hkl hl
  rw [List.getD_eq_getElem s 0 hk, List.getD_eq_getElem s 0 hl,
    ← List.get_eq_getElem s ⟨k, hk⟩, ← List.get_eq_getElem s ⟨l, hl⟩]
  exact hs.rel_get_of_le hkl

/-- The floor-based index of `interp` stays in the first `n − 1` positions
when the rank is in range. -/
lemma floor_toNat_le {h : ℚ} {n : ℕ} (hn : 1 ≤ n) (hle : h ≤ (n : ℚ) - 1) :
    ⌊h⌋.toNat ≤ n - 1 := by
  refine Int.toNat_le.mpr ?_
  have h1 : ((n - 1 : ℕ) : ℚ) = (n : ℚ) - 1 := by push_cast [hn]; ring
  have : ⌊h⌋ ≤ ⌊((n - 1 : ℕ) : ℚ)⌋ := Int.floor_le_floor (by rw [h1]; exact hle)
  simpa [Int.floor_natCast] using this

lemma floor_toNat_cast {h : ℚ} (h0 : 0 ≤ h) : ((⌊h⌋.toNat : ℚ)) = (⌊h⌋ : ℚ) := by
  have := Int.toNat_of_nonneg (Int.floor_nonneg.mpr h0)
  exact_mod_cast congrArg (fun z : ℤ => (z : ℚ)) this

lemma floor_toNat_cast_le {h : ℚ} (h0 : 0 ≤ h) : ((⌊h⌋.toNat : ℚ)) ≤ h := by
  rw [floor_toNat_cast h0]
  exact Int.floor_le h

lemma lt_floor_toNat_add_one {h : ℚ} (h0 : 0 ≤ h) : h < (⌊h⌋.toNat : ℚ) + 1 := by
  rw [floor_toNat_cast h0]
  exact Int.lt_floor_add_one h

/-- The interpolated value is at least the lower order statistic. -/
lemma getD_le_interp {s : List ℚ} (hs : List.Sorted (· ≤ ·) s) (hn : s ≠ [])
    {h : ℚ} (h0 : 0 ≤ h) (hr : h ≤ (s.length : ℚ) - 1) :
    s.getD ⌊h⌋.toNat 0 ≤ interp s h := by
  have hlen : 1 ≤ s.length := List.length_pos.mpr hn
  have hi : ⌊h⌋.toNat ≤ s.length - 1 := floor_toNat_le hlen hr
  have hmin : min (⌊h⌋.toNat + 1) (s.length - 1) < s.length :=
    lt_of_le_of_lt (min_le_right _ _) (by omega)
  have hlohi : s.getD ⌊h⌋.toNat 0 ≤ s.getD (min (⌊h⌋.toNat + 1) (s.length - 1)) 0 :=
    sorted_getD_mono hs (le_min (Nat.le_succ _) hi) hmin
  have hfrac : 0 ≤ h - (⌊h⌋.toNat : ℚ) := sub_nonneg.mpr (floor_toNat_cast_le h0)
  have := mul_nonneg hfrac (sub_nonneg.mpr hlohi)
  unfold interp
  linarith

/-- The interpolated value is at most the upper order statistic. -/
lemma interp_le_getD {s : List ℚ} (hs : List.Sorted (· ≤ ·) s) (hn : s ≠ [])
    {h : ℚ} (h0 : 0 ≤ h) (hr : h ≤ (s.length : ℚ) - 1) :
    interp s h ≤ s.getD (min (⌊h⌋.toNat + 1) (s.length - 1)) 0 := by
  have hlen : 1 ≤ s.length := List.length_pos.mpr hn
  have hi : ⌊h⌋.toNat ≤ s.length - 1 := floor_toNat_le hlen hr
  have hmin : min (⌊h⌋.toNat + 1) (s.length - 1) < s.length :=
    lt_of_le_of_lt (min_le_right _ _) (by omega)
  have hlohi : s.getD ⌊h⌋.toNat 0 ≤ s.getD (min (⌊h⌋.toNat + 1) (s.length - 1)) 0 :=
    sorted_getD_mono hs (le_min (Nat.le_succ _) hi) hmin
  have hfrac : h - (⌊h⌋.toNat : ℚ) ≤ 1 := by
    have := lt_floor_toNat_add_one h0
    linarith
  have := mul_le_mul_of_nonneg_right hfrac (sub_nonneg.mpr hlohi)
  unfold interp
  linarith

/-- Monotonicity of linear interpolation along a sorted list. -/
lemma interp_mono {s : List ℚ} (hs : List.Sorted (· ≤ ·) s) (hn : s ≠ [])
    {a b : ℚ} (ha : 0 ≤ a) (hab : a ≤ b) (hb : b ≤ (s.length : ℚ) - 1) :
    interp s a ≤ interp s b := by
  have hb0 : 0 ≤ b := le_trans ha hab
  have har : a ≤ (s.length : ℚ) - 1 := le_trans hab hb
  have hlen : 1 ≤ s.length := List.length_pos.mpr hn
  have hij : ⌊a⌋.toNat ≤ ⌊b⌋.toNat :=
    Int.toNat_le_toNat (Int.floor_le_floor hab)
  rcases Nat.eq_or_lt_of_le hij with heq | hlt
  · -- same segment: the difference is (b − a) times a nonnegative slope
    have hi : ⌊a⌋.toNat ≤ s.length - 1 := floor_toNat_le hlen har
    have hmin : min (⌊a⌋.toNat + 1) (s.length - 1) < s.length :=
      lt_of_le_of_lt (min_le_right _ _) (by omega)
    have hlohi : s.getD ⌊a⌋.toNat 0 ≤ s.getD (min (⌊a⌋.toNat + 1) (s.length - 1)) 0 :=
      sorted_getD_mono hs (le_min (Nat.le_succ _) hi) hmin
    have hslope := mul_le_mul_of_nonneg_right
      (sub_le_sub_right hab ((⌊a⌋.toNat : ℚ))) (sub_nonneg.mpr hlohi)
    unfold interp
    rw [← heq]
    linarith
  · -- different segments: go through the order statistics between them
    have hjb : ⌊b⌋.toNat ≤ s.length - 1 := floor_toNat_le hlen hb
    have hjlt : ⌊b⌋.toNat < s.length := by omega
    have h1 : interp s a ≤ s.getD (min (⌊a⌋.toNat + 1) (s.length - 1)) 0 :=
      interp_le_getD hs hn ha har
    have h2 : s.getD (min (⌊a⌋.toNat + 1) (s.length - 1)) 0 ≤ s.getD ⌊b⌋.toNat 0 :=
      sorted_getD_mono hs (le_trans (min_le_left _ _) hlt) hjlt
    have h3 : s.getD ⌊b⌋.toNat 0 ≤ interp s b := getD_le_interp hs hn hb0 hb
    linarith

/-- Quantiles of a non-empty list exist and are monotone in the
probability level. -/
lemma quantile?_mono (xs : List ℚ) (hx : xs ≠ []) {p q : ℚ}
    (hp : 0 ≤ p) (hpq : p ≤ q) (hq : q ≤ 1) :
    ∃ vp vq, quantile? xs p = some vp ∧ quantile? xs q = some vq ∧ vp ≤ vq := by
  refine ⟨_, _, by rw [quantile?, if_neg hx], by rw [quantile?, if_neg hx], ?_⟩
  have hlen : 1 ≤ xs.length := List.length_pos.mpr hx
  have hn1 : (0 : ℚ) ≤ (xs.length : ℚ) - 1 := by
    have : (1 : ℚ) ≤ (xs.length : ℚ) := by exact_mod_cast hlen
    linarith
  have hslen : ((sortVals xs).length : ℚ) - 1 = (xs.length : ℚ) - 1 := by
    rw [sortVals_length]
  refine interp_mono (sortVals_sorted xs) (sortVals_ne_nil hx)
    (mul_nonneg hn1 hp) (mul_le_mul_of_nonneg_left hpq hn1) ?_
  rw [hslen]
  calc ((xs.length : ℚ) - 1) * q ≤ ((xs.length : ℚ) - 1) * 1 :=
        mul_le_mul_of_nonneg_left hq hn1
    _ = (xs.length : ℚ) - 1 := mul_one _

/-- On a constant list every quantile is that constant. -/
lemma quantile?_const (xs : List ℚ) (c : ℚ) (hx : xs ≠ [])
    (hall : ∀ x ∈ xs, x = c) {q : ℚ} (h0 : 0 ≤ q) (h1 : q ≤ 1) :
    quantile? xs q = some c := by
  rw [quantile?, if_neg hx]
  have hlen : 1 ≤ xs.length := List.length_pos.mpr hx
  have hn1 : (0 : ℚ) ≤ (xs.length : ℚ) - 1 := by
    have : (1 : ℚ) ≤ (xs.length : ℚ) := by exact_mod_cast hlen
    linarith
  have hh0 : 0 ≤ ((xs.length : ℚ) - 1) * q := mul_nonneg hn1 h0
  have hhr : ((xs.length : ℚ) - 1) * q ≤ (xs.length : ℚ) - 1 := by
    calc ((xs.length : ℚ) - 1) * q ≤ ((xs.length : ℚ) - 1) * 1 :=
          mul_le_mul_of_nonneg_left h1 hn1
      _ = (xs.length : ℚ) - 1 := mul_one _
  have hgetD : ∀ k, k < (sortVals xs).length → (sortVals xs).getD k 0 = c := by
    intro k hk
    rw [List.getD_eq_getElem _ 0 hk]
    exact hall _ (mem_sortVals (List.getElem_mem hk))
  have hslen : 1 ≤ (sortVals xs).length := by rw [sortVals_length]; exact hlen
  have hi : ⌊((xs.length : ℚ) - 1) * q⌋.toNat ≤ (sortVals xs).length - 1 := by
    rw [sortVals_length]
    exact floor_toNat_le hlen hhr
  have hmin : min (⌊((xs.length : ℚ) - 1) * q⌋.toNat + 1) ((sortVals xs).length - 1)
      < (sortVals xs).length := lt_of_le_of_lt (min_le_right _ _) (by omega)
  unfold interp
  rw [hgetD ⌊((xs.length : ℚ) - 1) * q⌋.toNat (by omega), hgetD _ hmin]
  norm_num

/-! ### Derived facts about the per-column pipeline -/

/-- Both quartiles exist on a column with a non-missing value, and
`Q1 ≤ Q3`. -/
lemma Q1_le_Q3 (vs : List NumCell) (hne : vs.filterMap id ≠ []) :
    ∃ q1 q3, Q1 vs = some q1 ∧ Q3 vs = some q3 ∧ q1 ≤ q3 :=
  quantile?_mono _ hne (by norm_num) (by norm_num) (by norm_num)

/-- The fence evaluated when the quartiles exist. -/
lemma bounds_eq (vs : List NumCell) {q1 q3 : ℚ}
    (h1 : Q1 vs = some q1) (h3 : Q3 vs = some q3) :
    lower_bound vs = some (q1 - 3/2 * (q3 - q1)) ∧
      upper_bound vs = some (q3 + 3/2 * (q3 - q1)) := by
  constructor <;> simp [lower_bound, upper_bound, IQR, h1, h3, osub, oadd, oscale]

/-- The code's boolean mask agrees with the spec's strict-outside
predicate pointwise once the quartiles exist. -/
lemma outlierPred_eq_strictlyOutside (vs : List NumCell) {q1 q3 : ℚ}
    (h1 : Q1 vs = some q1) (h3 : Q3 vs = some q3) (v : NumCell) :
    outlierPred vs v
      = strictlyOutside (q1 - 3/2 * (q3 - q1)) (q3 + 3/2 * (q3 - q1)) v := by
  obtain ⟨hl, hu⟩ := bounds_eq vs h1 h3
  cases v with
  | none => simp [outlierPred, oltB, strictlyOutside, hl, hu]
  | some x =>
    simp only [outlierPred, oltB, strictlyOutside, hl, hu, Bool.decide_or]

/-- A numeric column whose cells all hold the constant `c` filters to a
non-empty list of `c`s. -/
lemma filterMap_const {vs : List NumCell} {c : ℚ} (hall : ∀ v ∈ vs, v = some c) :
    ∀ x ∈ vs.filterMap id, x = c := by
  intro x hx
  rw [List.mem_filterMap] at hx
  obtain ⟨v, hv, hvx⟩ := hx
  rw [hall v hv] at hvx
  exact (Option.some_inj.mp hvx).symm

lemma filterMap_const_ne_nil {vs : List NumCell} {c : ℚ} (hne : vs ≠ [])
    (hall : ∀ v ∈ vs, v = some c) : vs.filterMap id ≠ [] := by
  cases vs with
  | nil => exact absurd rfl hne
  | cons v tl =>
    rw [hall v (List.mem_cons_self v tl), List.filterMap_cons]
    simp

/-- Every entry the mask selects comes from the enumeration of the
column. -/
lemma mem_of_mem_outlierRows {vs : List NumCell} {p : ℕ × NumCell}
    (h : p ∈ outlierRows vs) : p ∈ vs.enum ∧ outlierPred vs p.2 = true := by
  rw [outlierRows, List.mem_filter] at h
  exact h

lemma snd_mem_of_mem_enum {α : Type} {l : List α} {p : ℕ × α} (h : p ∈ l.enum) :
    p.2 ∈ l := by
  rw [List.mem_enum_iff_getElem?] at h
  exact List.getElem?_mem h

lemma oltB_none_left (x : Option ℚ) : oltB none x = false := by
  cases x <;> rfl

lemma oltB_none_right (x : Option ℚ) : oltB x none = false := by
  cases x <;> rfl

/-! ### The claims -/

/-- C1: on any table and numeric column with at least one non-missing
value, scan computes Q1 and Q3 by linear interpolation, sets the fence to
[Q1 − 1.5·IQR, Q3 + 1.5·IQR], and returns exactly the rows whose value is
strictly outside the fence, in original row order (the filtered
enumeration of the column), with the count equal to their number. -/
theorem C1_scan_exact (t : Table) (c : String) (vs : List NumCell)
    (hcol : getCol t c = some (Column.num vs)) (hne : vs.filterMap id ≠ []) :
    ∃ q1 q3, Q1 vs = some q1 ∧ Q3 vs = some q3 ∧
      scan t c = Except.ok
        ⟨(vs.enum.filter (fun p =>
            strictlyOutside (q1 - 3/2 * (q3 - q1)) (q3 + 3/2 * (q3 - q1)) p.2)).length,
          vs.enum.filter (fun p =>
            strictlyOutside (q1 - 3/2 * (q3 - q1)) (q3 + 3/2 * (q3 - q1)) p.2)⟩ := by
  obtain ⟨q1, q3, h1, h3, _⟩ := Q1_le_Q3 vs hne
  refine ⟨q1, q3, h1, h3, ?_⟩
  have hfil : outlierRows vs = vs.enum.filter (fun p =>
      strictlyOutside (q1 - 3/2 * (q3 - q1)) (q3 + 3/2 * (q3 - q1)) p.2) := by
    rw [outlierRows]
    exact List.filter_congr (fun p _ => outlierPred_eq_strictlyOutside vs h1 h3 p.2)
  simp only [scan, hcol, scanCol, hfil]

/-- Witness for C1 at the column `[0, 10]`: both hypotheses hold and the
conclusion follows by applying the theorem. -/
theorem C1_scan_exact_witness :
    getCol [("x", Column.num [some 0, some 10])] "x" = some (Column.num [some 0, some 10]) ∧
    ([some 0, some 10] : List NumCell).filterMap id ≠ [] ∧
    (∃ q1 q3, Q1 [some 0, some 10] = some q1 ∧ Q3 [some 0, some 10] = some q3 ∧
      scan [("x", Column.num [some 0, some 10])] "x" = Except.ok
        ⟨(([some 0, some 10] : List NumCell).enum.filter (fun p =>
            strictlyOutside (q1 - 3/2 * (q3 - q1)) (q3 + 3/2 * (q3 - q1)) p.2)).length,
          ([some 0, some 10] : List NumCell).enum.filter (fun p =>
            strictlyOutside (q1 - 3/2 * (q3 - q1)) (q3 + 3/2 * (q3 - q1)) p.2)⟩) :=
  ⟨rfl, by simp, C1_scan_exact _ _ _ rfl (by simp)⟩

/-- C2 counterexample: on a table whose column has zero rows, scan does
NOT fail; it returns successfully with count 0 and no outliers (pandas
quantile of an empty series is NaN and NaN comparisons are false). -/
theorem C2_counterexample :
    scan [("x", Column.num [])] "x" = Except.ok ⟨0, []⟩ ∧
    scan [("x", Column.num [])] "x" ≠ Except.error ScanError.invalidColumn :=
  ⟨rfl, fun h => Except.noConfusion h⟩

/-- C2 amended: when scan is called on a table whose selected column has
zero rows, it does not raise; the quantiles are NaN, both fence
comparisons are false, and it returns count 0 with an empty outlier
sequence. -/
theorem C2_empty_returns_zero (t : Table) (c : String)
    (hcol : getCol t c = some (Column.num [])) :
    scan t c = Except.ok ⟨0, []⟩ := by
  simp only [scan, hcol]
  rfl

/-- Witness for the amended C2. -/
theorem C2_empty_returns_zero_witness :
    getCol [("x", Column.num [])] "x" = some (Column.num []) ∧
    scan [("x", Column.num [])] "x" = Except.ok ⟨0, []⟩ :=
  ⟨rfl, C2_empty_returns_zero [("x", Column.num [])] "x" rfl⟩

/-- C3: requesting a column that is absent (pandas `KeyError`) or not
numeric (pandas `TypeError` in `quantile`) fails with InvalidColumn and
produces no result at all. -/
theorem C3_invalid_column (t : Table) (c : String)
    (h : getCol t c = none ∨ ∃ ss, getCol t c = some (Column.obj ss)) :
    scan t c = Except.error ScanError.invalidColumn := by
  rcases h with h | ⟨ss, h⟩ <;> simp only [scan, h]

/-- Witness for C3: a table with only an object column has no
"petal_width" column, and scan fails on it. -/
theorem C3_invalid_column_witness :
    (getCol [("species", Column.obj ["setosa"])] "petal_width" = none ∨
      ∃ ss, getCol [("species", Column.obj ["setosa"])] "petal_width"
        = some (Column.obj ss)) ∧
    scan [("species", Column.obj ["setosa"])] "petal_width"
      = Except.error ScanError.invalidColumn :=
  ⟨Or.inl rfl, C3_invalid_column _ _ (Or.inl rfl)⟩

/-- C4: on a column with a non-missing value the fence exists and
satisfies lower bound ≤ upper bound (degenerate equality is allowed, and
no error state exists for it). -/
theorem C4_fence_ordered (vs : List NumCell) (hne : vs.filterMap id ≠ []) :
    ∃ lb ub, lower_bound vs = some lb ∧ upper_bound vs = some ub ∧ lb ≤ ub := by
  obtain ⟨q1, q3, h1, h3, hle⟩ := Q1_le_Q3 vs hne
  obtain ⟨hl, hu⟩ := bounds_eq vs h1 h3
  exact ⟨_, _, hl, hu, by linarith⟩

/-- Witness for C4 at the column `[1, 2]`. -/
theorem C4_fence_ordered_witness :
    ([some 1, some 2] : List NumCell).filterMap id ≠ [] ∧
    ∃ lb ub, lower_bound [some 1, some 2] = some lb ∧
      upper_bound [some 1, some 2] = some ub ∧ lb ≤ ub :=
  ⟨by simp, C4_fence_ordered _ (by simp)⟩

/-- C5: on the column `[1, 2, 2, 3, 3, 3, 4, 4, 100]`, Q1 = 2, Q3 = 4,
IQR = 2, the fence is [−1, 7], and scan returns the single outlier 100
(original position 8) with count 1. -/
theorem C5_concrete_scenario :
    Q1 [some 1, some 2, some 2, some 3, some 3, some 3, some 4, some 4, some 100] = some 2 ∧
    Q3 [some 1, some 2, some 2, some 3, some 3, some 3, some 4, some 4, some 100] = some 4 ∧
    IQR [some 1, some 2, some 2, some 3, some 3, some 3, some 4, some 4, some 100] = some 2 ∧
    lower_bound [some 1, some 2, some 2, some 3, some 3, some 3, some 4, some 4, some 100]
      = some (-1) ∧
    upper_bound [some 1, some 2, some 2, some 3, some 3, some 3, some 4, some 4, some 100]
      = some 7 ∧
    scan [("col", Column.num
        [some 1, some 2, some 2, some 3, some 3, some 3, some 4, some 4, some 100])] "col"
      = Except.ok ⟨1, [(8, some 100)]⟩ := by
  have h1 : Q1 [some 1, some 2, some 2, some 3, some 3, some 3, some 4, some 4, some 100]
      = some 2 := by
    norm_num [Q1, List.filterMap, quantile?, sortVals, interp, List.insertionSort,
      List.orderedInsert]
    refine ⟨by simp, ?_⟩
    simp
  have h3 : Q3 [some 1, some 2, some 2, some 3, some 3, some 3, some 4, some 4, some 100]
      = some 4 := by
    norm_num [Q3, List.filterMap, quantile?, sortVals, interp, List.insertionSort,
      List.orderedInsert]
    refine ⟨by simp, ?_⟩
    simp
  have hiqr : IQR [some 1, some 2, some 2, some 3, some 3, some 3, some 4, some 4, some 100]
      = some 2 := by
    rw [IQR, h1, h3]
    norm_num [osub]
  have hl : lower_bound
      [some 1, some 2, some 2, some 3, some 3, some 3, some 4, some 4, some 100]
      = some (-1) := by
    rw [(bounds_eq _ h1 h3).1]
    norm_num
  have hu : upper_bound
      [some 1, some 2, some 2, some 3, some 3, some 3, some 4, some 4, some 100]
      = some 7 := by
    rw [(bounds_eq _ h1 h3).2]
    norm_num
  have hrows : outlierRows
      [some 1, some 2, some 2, some 3, some 3, some 3, some 4, some 4, some 100]
      = [(8, some 100)] := by
    norm_num [outlierRows, outlierPred, hl, hu, oltB, List.enum, List.enumFrom,
      List.filter_cons]
  refine ⟨h1, h3, hiqr, hl, hu, ?_⟩
  have hcol : getCol [("col", Column.num
      [some 1, some 2, some 2, some 3, some 3, some 3, some 4, some 4, some 100])] "col"
      = some (Column.num
        [some 1, some 2, some 2, some 3, some 3, some 3, some 4, some 4, some 100]) := rfl
  simp only [scan, hcol, scanCol, hrows]
  rfl

/-- C6: a non-empty column whose values are all the constant `c` has
Q1 = Q3 = c, IQR 0, a degenerate fence at c, and no outliers: the strict
inequalities exclude values equal to the bounds. -/
theorem C6_constant_column (vs : List NumCell) (c : ℚ) (hne : vs ≠ [])
    (hall : ∀ v ∈ vs, v = some c) :
    Q1 vs = some c ∧ Q3 vs = some c ∧ IQR vs = some 0 ∧
    lower_bound vs = some c ∧ upper_bound vs = some c ∧
    scanCol vs = ⟨0, []⟩ := by
  have hxne := filterMap_const_ne_nil hne hall
  have hallx := filterMap_const hall
  have h1 : Q1 vs = some c := quantile?_const _ c hxne hallx (by norm_num) (by norm_num)
  have h3 : Q3 vs = some c := quantile?_const _ c hxne hallx (by norm_num) (by norm_num)
  have hiqr : IQR vs = some 0 := by simp [IQR, h1, h3, osub]
  obtain ⟨hl, hu⟩ := bounds_eq vs h1 h3
  have hl' : lower_bound vs = some c := by rw [hl]; norm_num
  have hu' : upper_bound vs = some c := by rw [hu]; norm_num
  have hrows : outlierRows vs = [] := by
    rw [outlierRows]
    refine List.filter_eq_nil_iff.mpr ?_
    intro p hp
    have hpc : p.2 = some c := hall _ (snd_mem_of_mem_enum hp)
    simp [outlierPred, oltB, hl', hu', hpc]
  exact ⟨h1, h3, hiqr, hl', hu', by simp [scanCol, hrows]⟩

/-- Witness for C6 at `[5, 5, 5, 5]`: Q1 = Q3 = 5 and zero outliers. -/
theorem C6_constant_column_witness :
    (([some 5, some 5, some 5, some 5] : List NumCell) ≠ []) ∧
    (∀ v ∈ ([some 5, some 5, some 5, some 5] : List NumCell), v = some 5) ∧
    (Q1 [some 5, some 5, some 5, some 5] = some 5 ∧
      Q3 [some 5, some 5, some 5, some 5] = some 5 ∧
      IQR [some 5, some 5, some 5, some 5] = some 0 ∧
      lower_bound [some 5, some 5, some 5, some 5] = some 5 ∧
      upper_bound [some 5, some 5, some 5, some 5] = some 5 ∧
      scanCol [some 5, some 5, some 5, some 5] = ⟨0, []⟩) :=
  ⟨by simp, by simp, C6_constant_column _ 5 (by simp) (by simp)⟩

/-- C7: missing values are excluded from the quantile computation (the
quartiles and fence of a column are unchanged when a missing cell is
inserted anywhere) and from outlier consideration (every row scan flags
carries a non-missing value). -/
theorem C7_missing_excluded :
    (∀ vs₁ vs₂ : List NumCell,
      Q1 (vs₁ ++ none :: vs₂) = Q1 (vs₁ ++ vs₂) ∧
      Q3 (vs₁ ++ none :: vs₂) = Q3 (vs₁ ++ vs₂) ∧
      lower_bound (vs₁ ++ none :: vs₂) = lower_bound (vs₁ ++ vs₂) ∧
      upper_bound (vs₁ ++ none :: vs₂) = upper_bound (vs₁ ++ vs₂)) ∧
    (∀ vs : List NumCell, ((scanCol vs).rows.all fun p => p.2.isSome) = true) := by
  constructor
  · intro vs₁ vs₂
    have key : (vs₁ ++ none :: vs₂).filterMap id = (vs₁ ++ vs₂).filterMap id := by simp
    exact ⟨by rw [Q1, key, Q1], by rw [Q3, key, Q3],
      by rw [lower_bound, IQR, Q1, Q3, key, ← Q1, ← Q3, ← IQR, ← lower_bound],
      by rw [upper_bound, IQR, Q1, Q3, key, ← Q1, ← Q3, ← IQR, ← upper_bound]⟩
  · intro vs
    rw [List.all_eq_true]
    intro p hp
    obtain ⟨_, hpred⟩ := mem_of_mem_outlierRows (p := p) (by simpa [scanCol] using hp)
    cases hv : p.2 with
    | some x => rfl
    | none =>
      rw [outlierPred, hv, oltB_none_left, oltB_none_right] at hpred
      exact absurd hpred (by simp)

/-- C8: scan is a deterministic, stateless function of its inputs:
calling it twice on the same table and column yields identical results. -/
theorem C8_deterministic (t : Table) (c : String) : scan t c = scan t c := rfl

lemma foldl_loopBody_df (cols : List String) :
    ∀ s : CellState, (cols.foldl loopBody s).df = s.df := by
  induction cols with
  | nil => intro s; rfl
  | cons c tl ih =>
    intro s
    rw [List.foldl_cons]
    exact ih (loopBody s c)

/-- C9: the Section 9 cell has no side effect on the table: after the
whole loop runs, `df` — every column, every row, in order — is exactly
what it was before. -/
theorem C9_read_only (s : CellState) : (outlierCell s).df = s.df :=
  foldl_loopBody_df _ s

/-- C10: the flagged row positions and the count depend only on the
selected column's value sequence: two tables whose column `c` holds the
same values produce identical scan results whatever their other columns
contain. -/
theorem C10_depends_only_on_column (t₁ t₂ : Table) (c : String) (vs : List NumCell)
    (h₁ : getCol t₁ c = some (Column.num vs)) (h₂ : getCol t₂ c = some (Column.num vs)) :
    scan t₁ c = scan t₂ c := by
  simp only [scan, h₁, h₂]

/-- Witness for C10: two tables differing in every other column agree on
column "x" and get the same scan result. -/
theorem C10_depends_only_on_column_witness :
    getCol [("species", Column.obj ["a"]), ("x", Column.num [some 1])] "x"
      = some (Column.num [some 1]) ∧
    getCol [("x", Column.num [some 1]), ("y", Column.num [some 9, none])] "x"
      = some (Column.num [some 1]) ∧
    scan [("species", Column.obj ["a"]), ("x", Column.num [some 1])] "x"
      = scan [("x", Column.num [some 1]), ("y", Column.num [some 9, none])] "x" :=
  ⟨rfl, rfl, C10_depends_only_on_column _ _ _ _ rfl rfl⟩

end Rexoul
